import Mathlib

/-!
Shallow embedding of the Hyperliquid web-scraping pipeline
(`src/utils/circuitbreaker.py`, `src/utils/loggingformat.py`,
`src/process/processor.py`, `src/process/liquidation.py`,
`src/process/position.py`, `src/process/fundinghistory.py`,
`src/validate/validate.py`, duplicated in `src/main.py`), together with
theorems settling the specification claims about it.

Modelling conventions:
* Python `defaultdict(int)` / `defaultdict(float)` / `defaultdict(bool)`
  maps become total functions `String → Nat` / `String → Int` /
  `String → Bool` with the Python default as the fresh value.
* Wall-clock reads (`datetime.now()`) become explicit parameters:
  an `Int` timestamp for the circuit breaker and statistics, a `String`
  for the textual timestamp placed in the liquidation distribution.
* Python `None` becomes `Option.none`; a caught exception becomes the
  `Except.error` branch of an explicit `Except`.
* Python floats become `ℚ`; `round(x, n)` becomes decimal
  round-half-to-even on `ℚ`.
-/

/-! ## CircuitBreaker (`src/utils/circuitbreaker.py`) -/

/-- Pointwise update of a string-keyed total function (one Python dict slot). -/
def updKey {α : Type} (f : String → α) (k : String) (v : α) : String → α :=
  fun k' => if k' = k then v else f k'

/-- State of `CircuitBreaker`: configuration plus the three per-key
default-dicts (`failures`, `last_failure_time`, `is_open`). -/
structure CircuitBreaker where
  failure_threshold : Nat
  reset_timeout : Int
  failures : String → Nat
  last_failure_time : String → Int
  is_open : String → Bool

/-- `CircuitBreaker.__init__`: empty default-dicts. -/
def CircuitBreaker.init (threshold : Nat) (timeout : Int) : CircuitBreaker :=
  ⟨threshold, timeout, fun _ => 0, fun _ => 0, fun _ => false⟩

/-- `CircuitBreaker.record_failure(operation_key)` with `current_time = now`. -/
def CircuitBreaker.record_failure (cb : CircuitBreaker) (key : String)
    (now : Int) : CircuitBreaker :=
  let n : Nat :=
    if now - cb.last_failure_time key > cb.reset_timeout then 1
    else cb.failures key + 1
  let cb' : CircuitBreaker :=
    { cb with
      failures := updKey cb.failures key n
      last_failure_time := updKey cb.last_failure_time key now }
  if cb.failure_threshold ≤ n then
    { cb' with is_open := updKey cb'.is_open key true }
  else cb'

/-- `CircuitBreaker.record_success(operation_key)`. -/
def CircuitBreaker.record_success (cb : CircuitBreaker) (key : String) :
    CircuitBreaker :=
  { cb with
    failures := updKey cb.failures key 0
    is_open := updKey cb.is_open key false }

/-- `CircuitBreaker.can_proceed(operation_key)` at time `now`; returns the
Boolean answer together with the (possibly reset) successor state. -/
def CircuitBreaker.can_proceed (cb : CircuitBreaker) (key : String)
    (now : Int) : Bool × CircuitBreaker :=
  if cb.is_open key = false then (true, cb)
  else if now - cb.last_failure_time key > cb.reset_timeout then
    (true,
      { cb with
        is_open := updKey cb.is_open key false
        failures := updKey cb.failures key 0 })
  else (false, cb)

/-- One external interaction with the breaker: a failure or success report,
or a `can_proceed` probe, each at an explicit time. -/
inductive CBEvent : Type where
  | fail (key : String) (now : Int)
  | succ (key : String)
  | proceed (key : String) (now : Int)

/-- Apply one event to a breaker state. -/
def CBEvent.apply (cb : CircuitBreaker) : CBEvent → CircuitBreaker
  | .fail k t => cb.record_failure k t
  | .succ k => cb.record_success k
  | .proceed k t => (cb.can_proceed k t).2

/-- Run a sequence of breaker interactions from a given state. -/
def runEvents (cb : CircuitBreaker) (evs : List CBEvent) : CircuitBreaker :=
  evs.foldl CBEvent.apply cb

/-! ## RunStatistics (`src/utils/loggingformat.py`, `BatchStats`) -/

/-- `FailureRecord` dataclass. -/
structure FailureRecord where
  asset : String
  step : String
  error : String
  timestamp : Int
deriving DecidableEq, Repr

/-- `BatchStats` dataclass: eight per-stage counters, the asset-universe
size, and the ordered failure log. -/
structure BatchStats where
  total_assets : Nat := 0
  successful_fetches : Nat := 0
  failed_fetches : Nat := 0
  successful_processes : Nat := 0
  failed_processes : Nat := 0
  successful_validations : Nat := 0
  failed_validations : Nat := 0
  successful_writes : Nat := 0
  failed_writes : Nat := 0
  failures : List FailureRecord := []
deriving DecidableEq, Repr

/-- `BatchStats(total_assets=n)` with `__post_init__` making `failures = []`. -/
def BatchStats.init (n : Nat) : BatchStats := { total_assets := n }

/-- `BatchStats.record_failure(asset, step, error)` stamped at time `now`. -/
def BatchStats.record_failure (s : BatchStats) (asset step error : String)
    (now : Int) : BatchStats :=
  { s with failures := s.failures ++ [⟨asset, step, error, now⟩] }

/-- `BatchStats.update_from_batch(other)`: field-wise counter addition plus
failure-log concatenation (`total_assets` is left untouched). -/
def BatchStats.update_from_batch (s other : BatchStats) : BatchStats :=
  { s with
    successful_fetches := s.successful_fetches + other.successful_fetches
    failed_fetches := s.failed_fetches + other.failed_fetches
    successful_processes := s.successful_processes + other.successful_processes
    failed_processes := s.failed_processes + other.failed_processes
    successful_validations :=
      s.successful_validations + other.successful_validations
    failed_validations := s.failed_validations + other.failed_validations
    successful_writes := s.successful_writes + other.successful_writes
    failed_writes := s.failed_writes + other.failed_writes
    failures := s.failures ++ other.failures }

/-- The eight per-stage counters of a `BatchStats`, as one tuple. -/
def BatchStats.counters (s : BatchStats) :
    Nat × Nat × Nat × Nat × Nat × Nat × Nat × Nat :=
  (s.successful_fetches, s.failed_fetches, s.successful_processes,
   s.failed_processes, s.successful_validations, s.failed_validations,
   s.successful_writes, s.failed_writes)

/-! ## Batch partitioning (`BatchProcessor._process_asset_batches`) -/

/-- Fuelled chunking loop: one step takes `assets[i:i+batch_size]` and
advances `i` by `batch_size`, exactly the slicing of
`for i in range(0, len(assets), self.batch_size)`. -/
def chunkFuel {α : Type} : Nat → Nat → List α → List (List α)
  | 0, _, _ => []
  | _ + 1, _, [] => []
  | f + 1, n, a :: l => (a :: l).take n :: chunkFuel f n ((a :: l).drop n)

/-- The contiguous batches `assets[0:n], assets[n:2n], …` produced by
`_process_asset_batches` for batch size `n`. -/
def chunkList {α : Type} (n : Nat) (l : List α) : List (List α) :=
  chunkFuel l.length n l

/-! ## Liquidation transform (`src/process/liquidation.py`) -/

/-- Python's `round` to an integer: round half to even. -/
def roundHalfEven (q : ℚ) : ℤ :=
  let f := ⌊q⌋
  let frac := q - f
  if frac < 1 / 2 then f
  else if frac > 1 / 2 then f + 1
  else if f % 2 = 0 then f else f + 1

/-- Python's `round(x, d)` for non-negative `d`. -/
def roundTo (q : ℚ) (d : Nat) : ℚ :=
  (roundHalfEven (q * 10 ^ d) : ℚ) / 10 ^ d

/-- `int(price_value // interval * interval)`: the floor-division bucket of a
price for a given bucket width. -/
def bucketOf (price : ℚ) (interval : ℤ) : ℤ :=
  ⌊price / (interval : ℚ)⌋ * interval

/-- Raw liquidation input: `{price: {wallet: amount}}`, preserving dict
iteration order as list order. -/
abbrev LiquidationData : Type := List (ℚ × List (String × ℚ))

/-- Accumulator of the first pass of `process_liquidation`: the
insertion-ordered `grouped_data` buckets `(key, long, short)` together with
`total_longs`, `total_shorts` and `largest_single`. -/
structure LiqAcc where
  grouped : List (ℤ × ℚ × ℚ)
  total_longs : ℚ
  total_shorts : ℚ
  largest : ℚ
deriving DecidableEq, Repr

/-- `if interval_key not in grouped_data: grouped_data[interval_key] = {...}`. -/
def ensureBucket (g : List (ℤ × ℚ × ℚ)) (key : ℤ) : List (ℤ × ℚ × ℚ) :=
  if g.any (fun e => e.1 = key) then g else g ++ [(key, 0, 0)]

/-- Add `dl` to the `long` slot and `ds` to the `short` slot of bucket `key`. -/
def bumpBucket (g : List (ℤ × ℚ × ℚ)) (key : ℤ) (dl ds : ℚ) :
    List (ℤ × ℚ × ℚ) :=
  g.map (fun e => if e.1 = key then (e.1, e.2.1 + dl, e.2.2 + ds) else e)

/-- Process the wallet amounts at one price level (the inner
`for amount in wallets.values()` loop). -/
def liqWallets (key : ℤ) (amounts : List (String × ℚ)) (acc : LiqAcc) :
    LiqAcc :=
  amounts.foldl
    (fun acc kv =>
      let amount := kv.2
      let acc := { acc with largest := max acc.largest (abs amount) }
      if amount > 0 then
        { acc with
          grouped := bumpBucket acc.grouped key amount 0
          total_longs := acc.total_longs + amount }
      else
        { acc with
          grouped := bumpBucket acc.grouped key 0 (abs amount)
          total_shorts := acc.total_shorts + abs amount })
    acc

/-- First pass of `process_liquidation`: collect all liquidations into
width-500 buckets and compute the scalar metrics. -/
def liqFirstPass (liquidation_data : LiquidationData) : LiqAcc :=
  liquidation_data.foldl
    (fun acc pw =>
      let key := bucketOf pw.1 500
      liqWallets key pw.2 { acc with grouped := ensureBucket acc.grouped key })
    ⟨[], 0, 0, 0⟩

/-- Insert into a sorted list of bucket keys (`sorted(grouped_data.keys())`). -/
def insertSortedInt (x : ℤ) : List ℤ → List ℤ
  | [] => [x]
  | y :: ys => if x ≤ y then x :: y :: ys else y :: insertSortedInt x ys

/-- Sort bucket keys ascending. -/
def sortInts (l : List ℤ) : List ℤ := l.foldr insertSortedInt []

/-- One row of the distribution chart. -/
structure DistEntry where
  price : ℤ
  long_liquidations : ℚ
  short_liquidations : ℚ
  cumulative_longs : ℚ
  cumulative_shorts : ℚ
deriving DecidableEq, Repr

/-- The liquidation distribution summary returned by `process_liquidation`. -/
structure LiqDistribution where
  asset : String
  distribution : List DistEntry
  current_price : ℚ
  timestamp : String
  update_interval : Nat
  base_currency : String
  precision : Nat
deriving DecidableEq, Repr

/-- The scalar liquidation metrics returned by `process_liquidation`. -/
structure LiqMetrics where
  total_long_liquidation : ℚ
  total_short_liquidation : ℚ
  largest_liquidation : ℚ
  total_liquidation : ℚ
deriving DecidableEq, Repr

/-- Second pass of `process_liquidation`: walk the buckets in ascending key
order; a bucket with positive longs contributes a long row, otherwise a
bucket with positive shorts contributes a short row. -/
def buildDistribution (acc : LiqAcc) : List DistEntry :=
  (sortInts (acc.grouped.map (fun e => e.1))).filterMap
    (fun key =>
      let slot :=
        (((acc.grouped.find? (fun e => e.1 = key)).map
          (fun e => e.2)).getD (0, 0))
      if slot.1 > 0 then
        some ⟨key, roundTo slot.1 2, 0, roundTo acc.total_longs 2, 0⟩
      else if slot.2 > 0 then
        some ⟨key, 0, roundTo slot.2 2, 0, roundTo acc.total_shorts 2⟩
      else none)

/-- `sorted(prices)[-1] if prices else 0`. -/
def maxPriceD (prices : List ℚ) : ℚ :=
  prices.foldl max (prices.headD 0)

/-- `process_liquidation(liquidation_data, asset_name)`; the wall-clock string
`str(datetime.now())` is the explicit parameter `now`. -/
def process_liquidation (liquidation_data : LiquidationData)
    (asset_name : String) (now : String) : LiqMetrics × LiqDistribution :=
  let acc := liqFirstPass liquidation_data
  let total_volume := acc.total_longs + acc.total_shorts
  (⟨roundTo acc.total_longs 8, roundTo acc.total_shorts 8,
    roundTo acc.largest 8, roundTo total_volume 8⟩,
   ⟨asset_name, buildDistribution acc,
    maxPriceD (liquidation_data.map (fun pw => pw.1)), now, 60, "USD", 2⟩)

/-! ## Per-asset processing (`src/process/processor.py`, `DataProcessor`,
with the leaf transforms of `src/process/fundinghistory.py` and
`src/process/position.py`) -/

/-- One funding-history entry, as a field/value association list. -/
abbrev FundingEntry : Type := List (String × String)

/-- The raw result dict assembled by `fetch_asset_data`. -/
structure AssetData where
  asset : String
  liquidation_data : Option LiquidationData
  funding_history : Option (List FundingEntry)

/-- One row of the shared position snapshot (`position_data['data']`),
keyed by its `Asset` field. -/
structure PositionRec where
  Asset : String
  fields : List (String × String)
deriving DecidableEq, Repr

/-- The shared position snapshot fetched once per run. -/
structure PositionData where
  lastUpdated : String
  data : List PositionRec
deriving Repr

/-- `fetch_asset_data(asset, batch_stats)`: the two collaborator results are
the explicit parameters `liq` and `fund`.  Returns the optional result dict
together with the successor breaker and statistics. -/
def fetch_asset_data (asset : String) (liq : Option LiquidationData)
    (fund : Option (List FundingEntry)) (cb : CircuitBreaker)
    (stats : BatchStats) (now : Int) :
    Option AssetData × CircuitBreaker × BatchStats :=
  let key := "fetch_" ++ asset
  match cb.can_proceed key now with
  | (false, cb') =>
      (none, cb', stats.record_failure asset "fetch" "Circuit breaker open" now)
  | (true, cb') =>
      if liq.isNone ∧ fund.isNone then
        (none, cb'.record_failure key now,
          stats.record_failure asset "fetch"
            "Both liquidation and funding data are None" now)
      else
        (some ⟨asset, liq, fund⟩, cb'.record_success key, stats)

/-- `process_funding_history(funding_history)`: drop the `coin` field. -/
def process_funding_history (entry : FundingEntry) : FundingEntry :=
  entry.filter (fun kv => kv.1 ≠ "coin")

/-- `DataProcessor._process_funding`: if the fetched funding history is
truthy, process its last entry; otherwise `None`. -/
def processFundingComp (asset_data : AssetData) : Option FundingEntry :=
  match asset_data.funding_history with
  | some entries =>
      match entries.getLast? with
      | some e => some (process_funding_history e)
      | none => none
  | none => none

/-- `DataProcessor._process_position`: first snapshot row whose `Asset`
matches, if any. -/
def processPositionComp (position_data : PositionData) (asset : String) :
    Option PositionRec :=
  position_data.data.find? (fun r => r.Asset = asset)

/-- `DataProcessor._process_liquidation`: if the fetched liquidation data is
truthy, run `process_liquidation`; otherwise `None`. -/
def processLiquidationComp (asset_data : AssetData) (asset : String)
    (nowStr : String) : Option (LiqMetrics × LiqDistribution) :=
  match asset_data.liquidation_data with
  | some l => if l.isEmpty then none else some (process_liquidation l asset nowStr)
  | none => none

/-- The merged per-asset output record (`process_position` plus the
distribution slot added by `_process_final_position`). -/
structure ProcessedPosition where
  base : PositionRec
  Funding_History : Option FundingEntry
  Liquidation_Metrics : Option LiqMetrics
  Timestamp : String
deriving DecidableEq, Repr

/-- `process_position(position_data, funding_history, liquidation_metrics,
lastupdated)` (`src/process/position.py`): update the looked-up position
dict in place; a `None` position raises (modelled as `Except.error`). -/
def process_position (position_data : Option PositionRec)
    (funding_history : Option FundingEntry)
    (liquidation_metrics : Option LiqMetrics) (lastupdated : String) :
    Except String ProcessedPosition :=
  match position_data with
  | none => .error "NoneType object has no attribute update"
  | some p => .ok ⟨p, funding_history, liquidation_metrics, lastupdated⟩

/-- The dict returned by `_process_final_position`. -/
structure FinalResult where
  position : ProcessedPosition
  liquidation_distribution : Option LiqDistribution
deriving DecidableEq, Repr

/-- `DataProcessor._process_components`: attempt the three sub-derivations
independently, then assemble the final position if any slot is non-empty.
In the embedding the three sub-steps are total, so only the final assembly
(`process_position` on a possibly-`None` position) can fail. -/
def processComponents (asset_data : AssetData) (position_data : PositionData)
    (timestamp asset : String) (stats : BatchStats) (now : Int)
    (nowStr : String) : Option FinalResult × BatchStats :=
  let fh := processFundingComp asset_data
  let pos := processPositionComp position_data asset
  let liq := processLiquidationComp asset_data asset nowStr
  let liqM := liq.map (fun md => md.1)
  let liqD := liq.map (fun md => md.2)
  if fh.isSome ∨ pos.isSome ∨ liqM.isSome ∨ liqD.isSome then
    match process_position pos fh liqM timestamp with
    | .ok pp => (some ⟨pp, liqD⟩, stats)
    | .error e => (none, stats.record_failure asset "process_final" e now)
  else (none, stats)

/-- `DataProcessor.process_asset_data(asset_data, position_data, timestamp,
batch_stats)`: breaker-guarded partial-result processing of one asset. -/
def process_asset_data (asset_data : Option AssetData)
    (position_data : PositionData) (timestamp : String) (cb : CircuitBreaker)
    (stats : BatchStats) (now : Int) (nowStr : String) :
    Option FinalResult × CircuitBreaker × BatchStats :=
  match asset_data with
  | none => (none, cb, stats)
  | some ad =>
      let key := "process_" ++ ad.asset
      match cb.can_proceed key now with
      | (false, cb') =>
          (none, cb',
            stats.record_failure ad.asset "process" "Circuit breaker open" now)
      | (true, cb') =>
          match processComponents ad position_data timestamp ad.asset stats now
              nowStr with
          | (some r, stats') => (some r, cb'.record_success key, stats')
          | (none, stats') =>
              (none, cb'.record_failure key now,
                stats'.record_failure ad.asset "process"
                  "No valid data to process" now)

/-! ## Batch coordination (`src/process/processor.py`, `BatchProcessor`)
and global validation (`src/validate/validate.py`) -/

/-- `validate_global_position_data(data)` over an abstract constructor for
the `GlobalMarketMetrics` Pydantic model: the validated object on success,
the original input unchanged when the constructor raises. -/
def validate_global_position_data {α β : Type}
    (construct : α → Except String β) (data : α) : β ⊕ α :=
  match construct data with
  | .ok v => .inl v
  | .error _ => .inr data

/-- `BatchProcessor._process_global_data`: process the shared snapshot,
validate it, and hand the validation result to the store.  Returns the
payload passed to `write_to_influx` together with the statistics. -/
def process_global_data {α β : Type} (process_global_position : PositionData → α)
    (construct : α → Except String β) (position_data : PositionData)
    (stats : BatchStats) : (β ⊕ α) × BatchStats :=
  (validate_global_position_data construct (process_global_position position_data),
   stats)

/-- `BatchProcessor._process_asset_batches`: fold the per-batch worker over
the contiguous batches, merging each batch's statistics into the total. -/
def process_asset_batches (batch_size : Nat) (assets : List String)
    (position_data : PositionData) (stats : BatchStats)
    (doBatch : List String → PositionData → BatchStats) : BatchStats :=
  (chunkList batch_size assets).foldl
    (fun st b => st.update_from_batch (doBatch b position_data)) stats

/-- Abstract long/short-trend snapshot (payload irrelevant to the claims). -/
structure LSTrendData where
  rows : List (String × String)

/-- `BatchProcessor._fetch_common_data`: run the two shared fetches in
order; a raised exception is recorded as a `GLOBAL` / `fetch_common`
failure and both results become `None`. -/
def fetch_common_data (posFetch : Except String (Option PositionData))
    (lsFetch : Except String (Option LSTrendData)) (stats : BatchStats)
    (now : Int) :
    (Option PositionData × Option LSTrendData) × BatchStats :=
  match posFetch with
  | .error e =>
      ((none, none), stats.record_failure "GLOBAL" "fetch_common" e now)
  | .ok p =>
      match lsFetch with
      | .error e =>
          ((none, none), stats.record_failure "GLOBAL" "fetch_common" e now)
      | .ok l => ((p, l), stats)

/-- Outcome of one `process_batches` run: the final statistics and whether
the batch loop / global finalisation were reached. -/
structure RunResult where
  stats : BatchStats
  ranBatches : Bool
  ranGlobal : Bool
deriving Repr

/-- `BatchProcessor.process_batches(assets)`: `Except.error` is the
re-raise of the outer `except` clause; a run whose shared fetch failed (or
returned a falsy snapshot) returns normally and early.  The batch loop and
the global finalisation are the abstract workers `runBatches` /
`runGlobal`, both of which return normally (their exceptions are caught
internally in the source). -/
def process_batches (assets : List String)
    (posFetch : Except String (Option PositionData))
    (lsFetch : Except String (Option LSTrendData))
    (runBatches : List String → PositionData → BatchStats → BatchStats)
    (runGlobal : PositionData → Option LSTrendData → BatchStats → BatchStats)
    (now : Int) : Except String RunResult :=
  let total := BatchStats.init assets.length
  match fetch_common_data posFetch lsFetch total now with
  | ((some p, ls), st) =>
      let st1 := runBatches assets p st
      let st2 := runGlobal p ls st1
      .ok ⟨st2, true, true⟩
  | ((none, _), st) => .ok ⟨st, false, false⟩
/-- A streak of `record_failure` calls for one key at the given times. -/
def failTimes (k : String) (ts : List Int) : List CBEvent :=
  ts.map (CBEvent.fail k)

/-! ## Theorems

One theorem per specification claim (C1–C10), preceded by the helper
lemmas its proof needs. -/

/-- C6: the statistics merge operation is, on the eight per-stage counters,
a field-wise addition that is associative and commutative (so merging any
multiset of batch statistics in any order yields the same counter totals),
and on the failure log it is sequence concatenation preserving each batch's
internal failure order. -/
theorem update_from_batch_assoc_comm_concat (a b c : BatchStats) :
    (a.update_from_batch b).update_from_batch c
        = a.update_from_batch (b.update_from_batch c)
    ∧ (a.update_from_batch b).counters = (b.update_from_batch a).counters
    ∧ (a.update_from_batch b).failures = a.failures ++ b.failures := by
  refine ⟨?_, ?_, rfl⟩
  · cases a; cases b; cases c
    simp [BatchStats.update_from_batch, Nat.add_assoc, List.append_assoc]
  · cases a; cases b
    simp [BatchStats.update_from_batch, BatchStats.counters, Nat.add_comm]

theorem chunkFuel_nil {α : Type} (f n : Nat) :
    chunkFuel f n ([] : List α) = [] := by
  cases f <;> rfl

theorem chunkFuel_eq_nil_iff {α : Type} (f n : Nat) (l : List α) :
    chunkFuel f n l = [] ↔ f = 0 ∨ l = [] := by
  cases f <;> cases l <;> simp [chunkFuel]

theorem chunkFuel_flatten {α : Type} (n : Nat) :
    ∀ (f : Nat) (l : List α), l.length ≤ f → 0 < n →
      (chunkFuel f n l).flatten = l := by
  intro f
  induction f with
  | zero =>
      intro l hl _
      have : l = [] := List.eq_nil_of_length_eq_zero (Nat.le_zero.mp hl)
      subst this; rfl
  | succ f ih =>
      intro l hl hn
      match l with
      | [] => rfl
      | a :: l' =>
          have hdrop : ((a :: l').drop n).length ≤ f := by
            simp only [List.length_drop, List.length_cons] at *
            omega
          simp only [chunkFuel, List.flatten_cons, ih _ hdrop hn,
            List.take_append_drop]

theorem chunkFuel_mem_length {α : Type} (n : Nat) :
    ∀ (f : Nat) (l : List α), l.length ≤ f → 0 < n →
      ∀ c ∈ chunkFuel f n l, 0 < c.length ∧ c.length ≤ n := by
  intro f
  induction f with
  | zero =>
      intro l hl _
      have : l = [] := List.eq_nil_of_length_eq_zero (Nat.le_zero.mp hl)
      subst this; simp [chunkFuel]
  | succ f ih =>
      intro l hl hn c hc
      match l with
      | [] => simp [chunkFuel] at hc
      | a :: l' =>
          simp only [chunkFuel, List.mem_cons] at hc
          rcases hc with hc | hc
          · subst hc
            constructor
            · simp [List.length_take]; omega
            · simp [List.length_take]
          · exact ih _ (by simp only [List.length_drop, List.length_cons] at *
                          ; omega) hn c hc

theorem chunkFuel_dropLast_length {α : Type} (n : Nat) :
    ∀ (f : Nat) (l : List α), l.length ≤ f → 0 < n →
      ∀ c ∈ (chunkFuel f n l).dropLast, c.length = n := by
  intro f
  induction f with
  | zero =>
      intro l hl _
      have : l = [] := List.eq_nil_of_length_eq_zero (Nat.le_zero.mp hl)
      subst this; simp [chunkFuel]
  | succ f ih =>
      intro l hl hn c hc
      match l with
      | [] => simp [chunkFuel] at hc
      | a :: l' =>
          simp only [chunkFuel] at hc
          rcases hrest : chunkFuel f n ((a :: l').drop n) with _ | ⟨r, rs⟩
          · rw [hrest] at hc; simp at hc
          · rw [hrest] at hc
            simp only [List.dropLast_cons₂, List.mem_cons] at hc
            rcases hc with hc | hc
            · subst hc
              have hdropne : (a :: l').drop n ≠ [] := by
                intro h
                rw [h, chunkFuel_nil] at hrest
                exact List.noConfusion hrest
              have hlen : n < (a :: l').length := by
                by_contra hcon
                push_neg at hcon
                exact hdropne (List.drop_eq_nil_of_le hcon)
              simp only [List.length_cons] at hlen
              simp only [List.length_take, List.length_cons]
              omega
            · have hdrop : ((a :: l').drop n).length ≤ f := by
                simp only [List.length_drop, List.length_cons] at *
                omega
              have := ih _ hdrop hn c
              rw [hrest] at this
              exact this hc

theorem sum_map_length_const {α : Type} (n : Nat) :
    ∀ (L : List (List α)), (∀ c ∈ L, c.length = n) →
      (L.map List.length).sum = n * L.length := by
  intro L
  induction L with
  | nil => intro _; simp
  | cons x xs ih =>
      intro h
      simp only [List.map_cons, List.sum_cons, List.length_cons,
        ih (fun c hc => h c (List.mem_cons_of_mem x hc)),
        h x (List.mem_cons_self x xs)]
      ring

theorem getLastD_eq_getLast_of_ne_nil {α : Type} (l : List α) (d : α)
    (h : l ≠ []) : l.getLastD d = l.getLast h := by
  cases l with
  | nil => exact absurd rfl h
  | cons a l => rw [List.getLastD_cons, List.getLast_eq_getLastD]

/-- C7: for every asset list and positive batch size, the coordinator
partitions the list into contiguous batches taken strictly in input order:
the batches concatenate back to the list, every batch except possibly the
last has exactly `batch_size` elements (and none is empty or oversized),
the last batch holds the remainder, and assets `["A","B","C"]` with batch
size 2 yield `["A","B"]` then `["C"]`. -/
theorem chunkList_partitions {α : Type} (n : Nat) (l : List α) (hn : 0 < n) :
    (chunkList n l).flatten = l
    ∧ (∀ c ∈ (chunkList n l).dropLast, c.length = n)
    ∧ (∀ c ∈ chunkList n l, 0 < c.length ∧ c.length ≤ n)
    ∧ (l ≠ [] →
        n * ((chunkList n l).length - 1)
          + ((chunkList n l).getLastD []).length = l.length)
    ∧ chunkList 2 ["A", "B", "C"] = [["A", "B"], ["C"]] := by
  have hflat : (chunkList n l).flatten = l :=
    chunkFuel_flatten n l.length l le_rfl hn
  have hdl : ∀ c ∈ (chunkList n l).dropLast, c.length = n :=
    chunkFuel_dropLast_length n l.length l le_rfl hn
  have hmem : ∀ c ∈ chunkList n l, 0 < c.length ∧ c.length ≤ n :=
    chunkFuel_mem_length n l.length l le_rfl hn
  refine ⟨hflat, hdl, hmem, ?_, by decide⟩
  intro hne
  have hLne : chunkList n l ≠ [] := by
    intro h
    rcases (chunkFuel_eq_nil_iff l.length n l).mp h with h0 | h0
    · exact hne (List.eq_nil_of_length_eq_zero h0)
    · exact hne h0
  have hsplit := List.dropLast_append_getLast hLne
  have hlast :
      (chunkList n l).getLastD [] = (chunkList n l).getLast hLne :=
    getLastD_eq_getLast_of_ne_nil _ _ hLne
  have hlen : l.length
      = ((chunkList n l).map List.length).sum := by
    conv_lhs => rw [← hflat]
    exact List.length_flatten _
  have hsum :
      ((chunkList n l).map List.length).sum
        = n * (chunkList n l).dropLast.length
          + ((chunkList n l).getLast hLne).length := by
    conv_lhs => rw [← hsplit]
    rw [List.map_append, List.sum_append,
      sum_map_length_const n _ hdl]
    simp
  have hdllen : (chunkList n l).dropLast.length
      = (chunkList n l).length - 1 := List.length_dropLast _
  rw [hlast, hlen, hsum, hdllen]

/-- C8: liquidation bucketing follows floor division with bucket width 500:
for input `{"1000": {"w1": 5}, "1499": {"w2": -3}}` both prices fall in
bucket 1000, that bucket accumulates long volume 5 and short volume 3, the
largest single liquidation reported is 5, and the total volume reported
is 8. -/
theorem liquidation_bucketing_example :
    bucketOf 1000 500 = 1000
    ∧ bucketOf 1499 500 = 1000
    ∧ (liqFirstPass
        [((1000 : ℚ), [("w1", (5 : ℚ))]), (1499, [("w2", -3)])]).grouped
      = [(1000, 5, 3)]
    ∧ (process_liquidation
        [((1000 : ℚ), [("w1", (5 : ℚ))]), (1499, [("w2", -3)])] "BTC" "t").1
      = ⟨5, 3, 5, 8⟩ := by
  refine ⟨by norm_num [bucketOf], by norm_num [bucketOf], ?_, ?_⟩
  · norm_num [liqFirstPass, liqWallets, ensureBucket, bumpBucket, bucketOf]
  · norm_num [process_liquidation, liqFirstPass, liqWallets, ensureBucket,
      bumpBucket, bucketOf, roundTo, roundHalfEven]

/-- C9 counterexample: `process_liquidation` is not a function of
`(liquidationData, assetName)` alone — two invocations with the same data
arguments but different wall-clock readings return different
distributions, because the distribution embeds `str(datetime.now())`. -/
theorem process_liquidation_time_dependent :
    (process_liquidation [] "X" "2024-01-01").2
      ≠ (process_liquidation [] "X" "2024-01-02").2 := by
  simp [process_liquidation]

/-- C9 amended: `process_liquidation` is deterministic given its inputs and
the current wall-clock time; the metrics component and every distribution
field except `timestamp` depend only on `(liquidationData, assetName)`. -/
theorem process_liquidation_deterministic_amended
    (d : LiquidationData) (name t₁ t₂ : String) :
    (process_liquidation d name t₁).1 = (process_liquidation d name t₂).1
    ∧ { (process_liquidation d name t₁).2 with timestamp := "" }
      = { (process_liquidation d name t₂).2 with timestamp := "" } :=
  ⟨rfl, rfl⟩

/-- C10: when the schema constructor for the global market record raises,
`validate_global_position_data` returns its original unvalidated input
unchanged, and the FINALIZE_GLOBAL path hands exactly that unvalidated
record to the store write. -/
theorem validate_global_fallback {α β : Type}
    (construct : α → Except String β) (process_global_position : PositionData → α)
    (pos : PositionData) (stats : BatchStats) (e : String)
    (h : construct (process_global_position pos) = .error e) :
    validate_global_position_data construct (process_global_position pos)
      = .inr (process_global_position pos)
    ∧ (process_global_data process_global_position construct pos stats).1
      = .inr (process_global_position pos) := by
  constructor
  · simp [validate_global_position_data, h]
  · simp [process_global_data, validate_global_position_data, h]

/-- Witness for C10 at a concrete failing constructor. -/
theorem validate_global_fallback_witness :
    validate_global_position_data
        (fun _ : Nat => (Except.error "bad" : Except String Nat)) 7
      = Sum.inr 7
    ∧ (process_global_data (fun _ : PositionData => (7 : Nat))
        (fun _ : Nat => (Except.error "bad" : Except String Nat))
        ⟨"", []⟩ (BatchStats.init 0)).1 = Sum.inr 7 :=
  validate_global_fallback (fun _ : Nat => Except.error "bad")
    (fun _ : PositionData => (7 : Nat)) ⟨"", []⟩ (BatchStats.init 0) "bad" rfl

/-- C2 counterexample: when the shared-context fetch raises, the exception
is NOT propagated to the caller of `process_batches` — the run returns
normally (`Except.ok`) after recording exactly one `GLOBAL` /
`fetch_common` failure and doing no batch work. -/
theorem fetch_common_error_not_propagated :
    process_batches ["A", "B"] (.error "boom") (.ok none)
        (fun _ _ s => s) (fun _ _ s => s) 7
      = .ok ⟨(BatchStats.init 2).record_failure "GLOBAL" "fetch_common"
          "boom" 7, false, false⟩
    ∧ process_batches ["A", "B"] (.error "boom") (.ok none)
        (fun _ _ s => s) (fun _ _ s => s) 7
      ≠ .error "boom"
    ∧ ((BatchStats.init 2).record_failure "GLOBAL" "fetch_common"
        "boom" 7).failures
      = [⟨"GLOBAL", "fetch_common", "boom", 7⟩] := by
  refine ⟨rfl, ?_, rfl⟩
  intro h
  rw [show process_batches ["A", "B"] (.error "boom") (.ok none)
      (fun _ _ s => s) (fun _ _ s => s) 7
    = .ok ⟨(BatchStats.init 2).record_failure "GLOBAL" "fetch_common"
        "boom" 7, false, false⟩ from rfl] at h
  exact Except.noConfusion h

/-- C2 amended: if the shared-context fetch raises, `process_batches`
records exactly one failure under the sentinel asset key `GLOBAL` (stage
`fetch_common`), performs no batch work, and returns normally and early —
the exception is swallowed by `_fetch_common_data`, not propagated. -/
theorem fetch_common_error_handling_amended (assets : List String)
    (e : String) (lsFetch : Except String (Option LSTrendData))
    (runBatches : List String → PositionData → BatchStats → BatchStats)
    (runGlobal : PositionData → Option LSTrendData → BatchStats → BatchStats)
    (now : Int) :
    process_batches assets (.error e) lsFetch runBatches runGlobal now
      = .ok ⟨(BatchStats.init assets.length).record_failure "GLOBAL"
          "fetch_common" e now, false, false⟩
    ∧ ((BatchStats.init assets.length).record_failure "GLOBAL"
        "fetch_common" e now).failures
      = [⟨"GLOBAL", "fetch_common", e, now⟩] :=
  ⟨rfl, rfl⟩

/-- C5: for an asset whose two fetch collaborators both return `None`,
`fetch_asset_data` returns `None`, appends exactly one statistics failure
tagged with stage `"fetch"`, and records one circuit-breaker failure for
the asset's fetch key. -/
theorem fetch_both_none_single_failure (asset : String)
    (cb : CircuitBreaker) (stats : BatchStats) (now : Int)
    (h : (cb.can_proceed ("fetch_" ++ asset) now).1 = true) :
    fetch_asset_data asset none none cb stats now
      = (none,
         ((cb.can_proceed ("fetch_" ++ asset) now).2).record_failure
           ("fetch_" ++ asset) now,
         stats.record_failure asset "fetch"
           "Both liquidation and funding data are None" now)
    ∧ (stats.record_failure asset "fetch"
        "Both liquidation and funding data are None" now).failures
      = stats.failures
        ++ [⟨asset, "fetch", "Both liquidation and funding data are None",
            now⟩] := by
  refine ⟨?_, rfl⟩
  unfold fetch_asset_data
  rcases hcp : cb.can_proceed ("fetch_" ++ asset) now with ⟨b, cb'⟩
  rw [hcp] at h
  simp only at h
  subst h
  simp [hcp]

/-- Witness for C5 on a fresh breaker, where `can_proceed` is true. -/
theorem fetch_both_none_single_failure_witness :
    fetch_asset_data "BTC" none none (CircuitBreaker.init 3 300)
        (BatchStats.init 1) 5
      = (none,
         (((CircuitBreaker.init 3 300).can_proceed "fetch_BTC" 5).2).record_failure
           "fetch_BTC" 5,
         (BatchStats.init 1).record_failure "BTC" "fetch"
           "Both liquidation and funding data are None" 5)
    ∧ ((BatchStats.init 1).record_failure "BTC" "fetch"
        "Both liquidation and funding data are None" 5).failures
      = (BatchStats.init 1).failures
        ++ [⟨"BTC", "fetch", "Both liquidation and funding data are None",
            5⟩] :=
  fetch_both_none_single_failure "BTC" (CircuitBreaker.init 3 300)
    (BatchStats.init 1) 5 rfl

/-- C4 counterexample: a fetch result with liquidation data but neither
funding data nor a row in the shared position snapshot makes the
liquidation sub-derivation succeed, yet `process_asset_data` returns
absent (final assembly raises on the missing position), refuting "whenever
at least one of the three sub-derivations produces a non-empty value,
processAsset assembles and returns a merged ProcessedPosition". -/
theorem partial_result_requires_position :
    (processLiquidationComp
        ⟨"X", some [((1000 : ℚ), [("w", (5 : ℚ))])], none⟩ "X" "s").isSome
      = true
    ∧ (process_asset_data
        (some ⟨"X", some [((1000 : ℚ), [("w", (5 : ℚ))])], none⟩)
        ⟨"T", []⟩ "T" (CircuitBreaker.init 3 300) (BatchStats.init 1) 0
        "s").1 = none
    ∧ (process_asset_data
        (some ⟨"X", some [((1000 : ℚ), [("w", (5 : ℚ))])], none⟩)
        ⟨"T", []⟩ "T" (CircuitBreaker.init 3 300) (BatchStats.init 1) 0
        "s").2.2.failures
      = [⟨"X", "process_final", "NoneType object has no attribute update", 0⟩,
         ⟨"X", "process", "No valid data to process", 0⟩] :=
  ⟨rfl, rfl, rfl⟩

/-- C4 amended: `fetch_asset_data` with liquidation data but no funding
data still reports success (no statistics failure, breaker success), and
`process_asset_data` returns a present merged record exactly when the
position lookup finds the asset in the shared snapshot; in that case the
record carries the funding slot (empty here), the liquidation metrics, and
the distribution, with absent slots set to `None` rather than failing.
When the position lookup fails, final assembly raises and the asset is
recorded as a processing failure even if liquidation data was present. -/
theorem partial_result_policy_amended (ad : AssetData) (pd : PositionData)
    (ts : String) (cb : CircuitBreaker) (stats : BatchStats) (now : Int)
    (nowStr : String)
    (hcp : (cb.can_proceed ("process_" ++ ad.asset) now).1 = true) :
    (∀ (liq : LiquidationData) (cb₂ : CircuitBreaker) (stats₂ : BatchStats),
      (cb₂.can_proceed ("fetch_" ++ ad.asset) now).1 = true →
      fetch_asset_data ad.asset (some liq) none cb₂ stats₂ now
        = (some ⟨ad.asset, some liq, none⟩,
           ((cb₂.can_proceed ("fetch_" ++ ad.asset) now).2).record_success
             ("fetch_" ++ ad.asset), stats₂))
    ∧ ((process_asset_data (some ad) pd ts cb stats now nowStr).1.isSome
        ↔ (processPositionComp pd ad.asset).isSome)
    ∧ (∀ p, processPositionComp pd ad.asset = some p →
        (process_asset_data (some ad) pd ts cb stats now nowStr).1
          = some ⟨⟨p, processFundingComp ad,
              (processLiquidationComp ad ad.asset nowStr).map
                (fun md => md.1), ts⟩,
              (processLiquidationComp ad ad.asset nowStr).map
                (fun md => md.2)⟩) := by
  rcases hc : cb.can_proceed ("process_" ++ ad.asset) now with ⟨b, cb'⟩
  rw [hc] at hcp
  simp only at hcp
  subst hcp
  refine ⟨?_, ?_, ?_⟩
  · intro liq cb₂ stats₂ h₂
    unfold fetch_asset_data
    rcases hc₂ : cb₂.can_proceed ("fetch_" ++ ad.asset) now with ⟨b₂, cb₂'⟩
    rw [hc₂] at h₂
    simp only at h₂
    subst h₂
    simp [hc₂]
  · cases hpos : processPositionComp pd ad.asset with
    | some p =>
        simp [process_asset_data, processComponents, hc, hpos,
          process_position]
    | none =>
        simp only [process_asset_data, processComponents, hc, hpos,
          process_position]
        split_ifs with hcond
        · simp
        · simp
  · intro p hp
    simp [process_asset_data, processComponents, hc, hp, process_position]

/-- Witness for the amended C4 at a concrete asset present in the
snapshot. -/
theorem partial_result_policy_amended_witness :
    fetch_asset_data "A" (some [((1 : ℚ), [("w", (2 : ℚ))])]) none
        (CircuitBreaker.init 3 300) (BatchStats.init 1) 0
      = (some ⟨"A", some [((1 : ℚ), [("w", (2 : ℚ))])], none⟩,
         (((CircuitBreaker.init 3 300).can_proceed "fetch_A" 0).2).record_success
           "fetch_A",
         BatchStats.init 1)
    ∧ ((process_asset_data (some ⟨"A", none, none⟩) ⟨"T", [⟨"A", []⟩]⟩ "T"
          (CircuitBreaker.init 3 300) (BatchStats.init 1) 0 "s").1.isSome
        ↔ (processPositionComp ⟨"T", [⟨"A", []⟩]⟩ "A").isSome)
    ∧ (process_asset_data (some ⟨"A", none, none⟩) ⟨"T", [⟨"A", []⟩]⟩ "T"
          (CircuitBreaker.init 3 300) (BatchStats.init 1) 0 "s").1
      = some ⟨⟨⟨"A", []⟩, processFundingComp ⟨"A", none, none⟩,
          (processLiquidationComp ⟨"A", none, none⟩ "A" "s").map
            (fun md => md.1), "T"⟩,
          (processLiquidationComp ⟨"A", none, none⟩ "A" "s").map
            (fun md => md.2)⟩ :=
  ⟨(partial_result_policy_amended ⟨"A", none, none⟩ ⟨"T", [⟨"A", []⟩]⟩ "T"
      (CircuitBreaker.init 3 300) (BatchStats.init 1) 0 "s" rfl).1
      [((1 : ℚ), [("w", (2 : ℚ))])] (CircuitBreaker.init 3 300)
      (BatchStats.init 1) rfl,
   (partial_result_policy_amended ⟨"A", none, none⟩ ⟨"T", [⟨"A", []⟩]⟩ "T"
      (CircuitBreaker.init 3 300) (BatchStats.init 1) 0 "s" rfl).2.1,
   (partial_result_policy_amended ⟨"A", none, none⟩ ⟨"T", [⟨"A", []⟩]⟩ "T"
      (CircuitBreaker.init 3 300) (BatchStats.init 1) 0 "s" rfl).2.2
      ⟨"A", []⟩ rfl⟩

theorem record_failure_failures (cb : CircuitBreaker) (k : String) (t : Int)
    (k' : String) :
    (cb.record_failure k t).failures k'
      = if k' = k then
          (if t - cb.last_failure_time k > cb.reset_timeout then 1
           else cb.failures k + 1)
        else cb.failures k' := by
  simp only [CircuitBreaker.record_failure]
  split_ifs <;> simp [updKey] <;> tauto

theorem record_failure_last (cb : CircuitBreaker) (k : String) (t : Int)
    (k' : String) :
    (cb.record_failure k t).last_failure_time k'
      = if k' = k then t else cb.last_failure_time k' := by
  simp only [CircuitBreaker.record_failure]
  split_ifs <;> simp [updKey] <;> tauto

theorem record_failure_is_open (cb : CircuitBreaker) (k : String) (t : Int)
    (k' : String) :
    (cb.record_failure k t).is_open k'
      = if k' = k
          ∧ cb.failure_threshold
            ≤ (if t - cb.last_failure_time k > cb.reset_timeout then 1
               else cb.failures k + 1)
        then true else cb.is_open k' := by
  simp only [CircuitBreaker.record_failure]
  by_cases hk : k' = k
  · subst hk
    split_ifs <;> simp_all [updKey]
  · split_ifs <;> simp_all [updKey]

theorem record_failure_threshold (cb : CircuitBreaker) (k : String)
    (t : Int) :
    (cb.record_failure k t).failure_threshold = cb.failure_threshold := by
  simp only [CircuitBreaker.record_failure]
  split_ifs <;> rfl

theorem record_failure_timeout (cb : CircuitBreaker) (k : String) (t : Int) :
    (cb.record_failure k t).reset_timeout = cb.reset_timeout := by
  simp only [CircuitBreaker.record_failure]
  split_ifs <;> rfl

theorem apply_preserves_open_imp_pos (cb : CircuitBreaker) (e : CBEvent)
    (h : ∀ k, cb.is_open k = true → 1 ≤ cb.failures k) :
    ∀ k, (CBEvent.apply cb e).is_open k = true
      → 1 ≤ (CBEvent.apply cb e).failures k := by
  intro k hk
  cases e with
  | fail k' t =>
      simp only [CBEvent.apply] at hk ⊢
      by_cases hkk : k = k'
      · subst hkk
        rw [record_failure_failures]
        simp only [if_pos rfl]
        split_ifs <;> omega
      · rw [record_failure_is_open, if_neg (by tauto)] at hk
        rw [record_failure_failures, if_neg hkk]
        exact h k hk
  | succ k' =>
      simp only [CBEvent.apply, CircuitBreaker.record_success, updKey] at hk ⊢
      by_cases hkk : k = k'
      · simp [hkk] at hk
      · simp only [hkk, if_false, if_neg hkk] at hk ⊢
        exact h k hk
  | proceed k' t =>
      simp only [CBEvent.apply, CircuitBreaker.can_proceed] at hk ⊢
      split_ifs at hk ⊢ with h1 h2
      · exact h k hk
      · simp only [updKey] at hk ⊢
        by_cases hkk : k = k'
        · simp [hkk] at hk
        · simp only [hkk, if_neg hkk] at hk ⊢
          exact h k hk
      · exact h k hk

theorem runEvents_preserves (P : CircuitBreaker → Prop)
    (hstep : ∀ cb e, P cb → P (CBEvent.apply cb e)) :
    ∀ (evs : List CBEvent) (cb : CircuitBreaker), P cb → P (runEvents cb evs) := by
  intro evs
  induction evs with
  | nil => intro cb h; exact h
  | cons e evs ih =>
      intro cb h
      exact ih (CBEvent.apply cb e) (hstep cb e h)

/-- C1 counterexample: a third failure opens the breaker, and a fourth
failure arriving more than `reset_timeout` after the previous one resets
the count to 1 while leaving the breaker open, so `is_open = true` with
`failures = 1 < failure_threshold = 3` is reachable, refuting the claimed
invariant. -/
theorem circuit_open_below_threshold_reachable :
    (runEvents (CircuitBreaker.init 3 300)
      [.fail "k" 0, .fail "k" 1, .fail "k" 2, .fail "k" 303]).is_open "k"
      = true
    ∧ (runEvents (CircuitBreaker.init 3 300)
        [.fail "k" 0, .fail "k" 1, .fail "k" 2, .fail "k" 303]).failures "k"
      < (runEvents (CircuitBreaker.init 3 300)
        [.fail "k" 0, .fail "k" 1, .fail "k" 2, .fail "k" 303]).failure_threshold := by
  decide

/-- C1 amended: in every reachable state, `is_open[key] = true` implies
only `failures[key] ≥ 1` (not `≥ failure_threshold`): a stale
`record_failure` more than `reset_timeout` after the previous failure
resets the count to 1 but never clears `is_open`.  The threshold bound
does hold at the moment the breaker transitions from closed to open: a
`record_failure` that turns `is_open` from false to true leaves
`failures[key] ≥ failure_threshold`. -/
theorem circuit_open_invariant_amended (thr : Nat) (rt : Int)
    (evs : List CBEvent) (k : String) :
    ((runEvents (CircuitBreaker.init thr rt) evs).is_open k = true →
      1 ≤ (runEvents (CircuitBreaker.init thr rt) evs).failures k)
    ∧ (∀ (cb : CircuitBreaker) (t : Int), cb.is_open k = false →
        (cb.record_failure k t).is_open k = true →
        cb.failure_threshold ≤ (cb.record_failure k t).failures k) := by
  constructor
  · intro hopen
    exact runEvents_preserves
      (fun cb => ∀ k', cb.is_open k' = true → 1 ≤ cb.failures k')
      apply_preserves_open_imp_pos evs (CircuitBreaker.init thr rt)
      (by intro k' h'; simp [CircuitBreaker.init] at h') k hopen
  · intro cb t h0 h1
    rw [record_failure_is_open] at h1
    rw [record_failure_failures, if_pos rfl]
    split_ifs at h1 ⊢ with hc hcond hcond2
    · exact hcond.2
    · exact absurd h1 (by simp [h0])
    · exact hcond2.2
    · exact absurd h1 (by simp [h0])

/-- Witness for the amended C1: three quick failures then the invariant
consequences at concrete states. -/
theorem circuit_open_invariant_amended_witness :
    (1 ≤ (runEvents (CircuitBreaker.init 3 300)
      [.fail "k" 0, .fail "k" 1, .fail "k" 2]).failures "k")
    ∧ ((runEvents (CircuitBreaker.init 3 300)
          [.fail "k" 0, .fail "k" 1]).failure_threshold
        ≤ (((runEvents (CircuitBreaker.init 3 300)
          [.fail "k" 0, .fail "k" 1]).record_failure "k" 2).failures "k")) :=
  ⟨(circuit_open_invariant_amended 3 300
      [.fail "k" 0, .fail "k" 1, .fail "k" 2] "k").1 (by decide),
   (circuit_open_invariant_amended 3 300 [] "k").2
      (runEvents (CircuitBreaker.init 3 300) [.fail "k" 0, .fail "k" 1]) 2
      (by decide) (by decide)⟩

theorem record_failure_within (cb : CircuitBreaker) (k : String) (t : Int)
    (h : ¬ t - cb.last_failure_time k > cb.reset_timeout) :
    (cb.record_failure k t).failures k = cb.failures k + 1
    ∧ (cb.record_failure k t).last_failure_time k = t
    ∧ (cb.record_failure k t).is_open k
      = (cb.is_open k
         || decide (cb.failure_threshold ≤ cb.failures k + 1)) := by
  rw [record_failure_failures, record_failure_last, record_failure_is_open]
  simp only [if_pos rfl, if_neg h]
  refine ⟨rfl, rfl, ?_⟩
  by_cases hth : cb.failure_threshold ≤ cb.failures k + 1 <;> simp [hth]

theorem record_failure_fresh (cb : CircuitBreaker) (k : String) (t : Int)
    (h0 : cb.failures k = 0) :
    (cb.record_failure k t).failures k = 1
    ∧ (cb.record_failure k t).last_failure_time k = t
    ∧ (cb.record_failure k t).is_open k
      = (cb.is_open k || decide (cb.failure_threshold ≤ 1)) := by
  rw [record_failure_failures, record_failure_last, record_failure_is_open]
  simp only [if_pos rfl, h0, Nat.zero_add]
  refine ⟨by split_ifs <;> rfl, rfl, ?_⟩
  by_cases hth : cb.failure_threshold ≤ 1 <;> split_ifs <;> simp [hth] <;>
    tauto

theorem streak_aux (k : String) :
    ∀ (ts : List Int) (cb : CircuitBreaker) (p : Int),
      cb.last_failure_time k = p →
      (p :: ts).Chain' (fun a b => b - a ≤ cb.reset_timeout) →
      (runEvents cb (failTimes k ts)).failure_threshold = cb.failure_threshold
      ∧ (runEvents cb (failTimes k ts)).reset_timeout = cb.reset_timeout
      ∧ (runEvents cb (failTimes k ts)).failures k
          = cb.failures k + ts.length
      ∧ (runEvents cb (failTimes k ts)).last_failure_time k
          = (p :: ts).getLastD 0
      ∧ (runEvents cb (failTimes k ts)).is_open k
          = (cb.is_open k
             || decide (ts ≠ []
                 ∧ cb.failure_threshold ≤ cb.failures k + ts.length)) := by
  intro ts
  induction ts with
  | nil =>
      intro cb p hp _
      refine ⟨rfl, rfl, rfl, ?_, by simp [runEvents, failTimes]⟩
      simpa [runEvents, failTimes] using hp
  | cons t ts' ih =>
      intro cb p hp hchain
      rw [List.chain'_cons] at hchain
      obtain ⟨h1, h2⟩ := hchain
      have hwin : ¬ t - cb.last_failure_time k > cb.reset_timeout := by
        rw [hp]; omega
      obtain ⟨hf, hl, ho⟩ := record_failure_within cb k t hwin
      have hth := record_failure_threshold cb k t
      have hto := record_failure_timeout cb k t
      have hrun : runEvents cb (failTimes k (t :: ts'))
          = runEvents (cb.record_failure k t) (failTimes k ts') := rfl
      have hchain' : (t :: ts').Chain'
          (fun a b => b - a ≤ (cb.record_failure k t).reset_timeout) := by
        rw [hto]; exact h2
      obtain ⟨c1, c2, c3, c4, c5⟩ := ih (cb.record_failure k t) t hl hchain'
      rw [hrun]
      refine ⟨by rw [c1, hth], by rw [c2, hto], ?_, ?_, ?_⟩
      · rw [c3, hf]
        simp only [List.length_cons]
        omega
      · rw [c4]
        simp [List.getLastD_cons]
      · rw [c5, ho, hf, hth]
        cases hopen : cb.is_open k
        · simp only [Bool.false_or]
          rcases ts' with _ | ⟨x, xs⟩
          · simp
          · simp only [ne_eq, List.cons_ne_nil, not_false_iff, true_and,
              List.length_cons]
            by_cases ha : cb.failure_threshold ≤ cb.failures k + 1 <;>
              by_cases hb : cb.failure_threshold
                ≤ cb.failures k + 1 + (xs.length + 1) <;>
              simp [ha, hb] <;> omega
        · simp

theorem streak_fresh (thr : Nat) (rt : Int) (k : String) (ts : List Int)
    (hch : ts.Chain' (fun a b => b - a ≤ rt)) :
    (runEvents (CircuitBreaker.init thr rt) (failTimes k ts)).failure_threshold
        = thr
    ∧ (runEvents (CircuitBreaker.init thr rt) (failTimes k ts)).reset_timeout
        = rt
    ∧ (runEvents (CircuitBreaker.init thr rt) (failTimes k ts)).failures k
        = ts.length
    ∧ (runEvents (CircuitBreaker.init thr rt) (failTimes k ts)).last_failure_time
        k = ts.getLastD 0
    ∧ (runEvents (CircuitBreaker.init thr rt) (failTimes k ts)).is_open k
        = decide (ts ≠ [] ∧ thr ≤ ts.length) := by
  rcases ts with _ | ⟨t, ts'⟩
  · refine ⟨rfl, rfl, rfl, rfl, by simp [runEvents, failTimes,
      CircuitBreaker.init]⟩
  · have h0 : (CircuitBreaker.init thr rt).failures k = 0 := rfl
    obtain ⟨hf, hl, ho⟩ :=
      record_failure_fresh (CircuitBreaker.init thr rt) k t h0
    have hth := record_failure_threshold (CircuitBreaker.init thr rt) k t
    have hto := record_failure_timeout (CircuitBreaker.init thr rt) k t
    have hchain' : (t :: ts').Chain' (fun a b =>
        b - a ≤ ((CircuitBreaker.init thr rt).record_failure k t).reset_timeout) := by
      rw [hto]; exact hch
    obtain ⟨c1, c2, c3, c4, c5⟩ :=
      streak_aux k ts' ((CircuitBreaker.init thr rt).record_failure k t) t hl
        hchain'
    have hrun : runEvents (CircuitBreaker.init thr rt)
        (failTimes k (t :: ts'))
        = runEvents ((CircuitBreaker.init thr rt).record_failure k t)
          (failTimes k ts') := rfl
    have hIt : (CircuitBreaker.init thr rt).failure_threshold = thr := rfl
    have hIr : (CircuitBreaker.init thr rt).reset_timeout = rt := rfl
    have hinit : (CircuitBreaker.init thr rt).is_open k = false := rfl
    rw [hrun]
    refine ⟨by rw [c1, hth]; rfl, by rw [c2, hto]; rfl, ?_, ?_, ?_⟩
    · rw [c3, hf]
      simp [Nat.add_comm]
    · rw [c4]
    · rw [c5, ho, hf, hth, hIt, hinit]
      simp only [Bool.false_or]
      rcases ts' with _ | ⟨x, xs⟩
      · simp
      · simp only [ne_eq, List.cons_ne_nil, not_false_iff, true_and,
          List.length_cons]
        by_cases ha : thr ≤ 1 <;>
          by_cases hb : thr ≤ 1 + (xs.length + 1) <;>
          by_cases hcc : thr ≤ xs.length + 1 + 1 <;>
          simp [ha, hb, hcc] <;> omega

/-- C3: from a fresh key, `can_proceed` returns true while the number of
consecutive in-window failures is below `failure_threshold`; immediately
after the threshold-th consecutive failure it returns false (leaving the
state untouched) for as long as at most `reset_timeout` has elapsed since
the last failure; once strictly more than `reset_timeout` has elapsed it
returns true again, clearing `is_open` and resetting the count to 0. -/
theorem can_proceed_threshold_behavior (thr : Nat) (rt : Int) (k : String)
    (hthr : 1 ≤ thr) :
    (∀ (ts : List Int) (now : Int),
        ts.Chain' (fun a b => b - a ≤ rt) → ts.length < thr →
        ((runEvents (CircuitBreaker.init thr rt) (failTimes k ts)).can_proceed
            k now).1 = true)
    ∧ (∀ (ts : List Int) (now : Int),
        ts.Chain' (fun a b => b - a ≤ rt) → ts.length = thr →
        now - ts.getLastD 0 ≤ rt →
        (runEvents (CircuitBreaker.init thr rt) (failTimes k ts)).can_proceed
            k now
          = (false,
             runEvents (CircuitBreaker.init thr rt) (failTimes k ts)))
    ∧ (∀ (ts : List Int) (now : Int),
        ts.Chain' (fun a b => b - a ≤ rt) → ts.length = thr →
        now - ts.getLastD 0 > rt →
        ((runEvents (CircuitBreaker.init thr rt) (failTimes k ts)).can_proceed
            k now).1 = true
        ∧ (((runEvents (CircuitBreaker.init thr rt)
              (failTimes k ts)).can_proceed k now).2).is_open k = false
        ∧ (((runEvents (CircuitBreaker.init thr rt)
              (failTimes k ts)).can_proceed k now).2).failures k = 0) := by
  refine ⟨?_, ?_, ?_⟩
  · intro ts now hch hlt
    obtain ⟨_, _, hf, _, ho⟩ := streak_fresh thr rt k ts hch
    have hopen : (runEvents (CircuitBreaker.init thr rt)
        (failTimes k ts)).is_open k = false := by
      rw [ho]
      simp only [decide_eq_false_iff_not]
      rintro ⟨_, hle⟩
      omega
    simp [CircuitBreaker.can_proceed, hopen]
  · intro ts now hch hlen hle
    obtain ⟨_, hrt, hf, hlast, ho⟩ := streak_fresh thr rt k ts hch
    have hne : ts ≠ [] := by
      intro h
      rw [h] at hlen
      simp at hlen
      omega
    have hopen : (runEvents (CircuitBreaker.init thr rt)
        (failTimes k ts)).is_open k = true := by
      rw [ho]
      simp [hne, hlen]
    unfold CircuitBreaker.can_proceed
    rw [hopen, hrt, hlast]
    simp only [Bool.true_eq_false, if_false]
    rw [if_neg (by omega)]
  · intro ts now hch hlen hgt
    obtain ⟨_, hrt, hf, hlast, ho⟩ := streak_fresh thr rt k ts hch
    have hne : ts ≠ [] := by
      intro h
      rw [h] at hlen
      simp at hlen
      omega
    have hopen : (runEvents (CircuitBreaker.init thr rt)
        (failTimes k ts)).is_open k = true := by
      rw [ho]
      simp [hne, hlen]
    unfold CircuitBreaker.can_proceed
    rw [hopen, hrt, hlast]
    simp only [Bool.true_eq_false, if_false]
    rw [if_pos (by omega)]
    refine ⟨rfl, ?_, ?_⟩ <;> simp [updKey]

/-- Witness for C3 with threshold 3, timeout 300 and the failure streak at
times 0, 1, 2. -/
theorem can_proceed_threshold_behavior_witness :
    ((runEvents (CircuitBreaker.init 3 300)
        (failTimes "k" [0, 1])).can_proceed "k" 1000).1 = true
    ∧ (runEvents (CircuitBreaker.init 3 300)
        (failTimes "k" [0, 1, 2])).can_proceed "k" 100
      = (false, runEvents (CircuitBreaker.init 3 300)
          (failTimes "k" [0, 1, 2]))
    ∧ (((runEvents (CircuitBreaker.init 3 300)
        (failTimes "k" [0, 1, 2])).can_proceed "k" 400).1 = true
      ∧ ((((runEvents (CircuitBreaker.init 3 300)
          (failTimes "k" [0, 1, 2])).can_proceed "k" 400).2).is_open "k"
        = false)
      ∧ ((((runEvents (CircuitBreaker.init 3 300)
          (failTimes "k" [0, 1, 2])).can_proceed "k" 400).2).failures "k"
        = 0)) :=
  ⟨(can_proceed_threshold_behavior 3 300 "k" (by decide)).1 [0, 1] 1000
      (by norm_num [List.chain'_cons]) (by decide),
   (can_proceed_threshold_behavior 3 300 "k" (by decide)).2.1 [0, 1, 2] 100
      (by norm_num [List.chain'_cons]) (by decide) (by decide),
   (can_proceed_threshold_behavior 3 300 "k" (by decide)).2.2 [0, 1, 2] 400
      (by norm_num [List.chain'_cons]) (by decide) (by decide)⟩

/-- Witness for C7 at batch size 2 over `["A", "B", "C"]`. -/
theorem chunkList_partitions_witness :
    (chunkList 2 ["A", "B", "C"]).flatten = ["A", "B", "C"]
    ∧ (∀ c ∈ (chunkList 2 ["A", "B", "C"]).dropLast, c.length = 2)
    ∧ (2 * ((chunkList 2 ["A", "B", "C"]).length - 1)
        + ((chunkList 2 ["A", "B", "C"]).getLastD []).length = 3) :=
  ⟨(chunkList_partitions 2 ["A", "B", "C"] (by decide)).1,
   (chunkList_partitions 2 ["A", "B", "C"] (by decide)).2.1,
   by
     have h := (chunkList_partitions 2 ["A", "B", "C"] (by decide)).2.2.2.1
       (by decide)
     simpa using h⟩
